import Mathlib

/-
  Verification of the husc image-preprocessing pipeline.

  The repository's command-line driver is `husc/main.py`; it dispatches to the
  preprocessing routines of the `husc.preprocess` module (mask estimation,
  illumination estimation and correction, quadrant stitching).  The driver is
  embedded below from its source; the preprocessing components, whose source
  is not part of this tree (only their callers in `main.py` are), are modelled
  from the design document, as marked on each definition.

  Images are embedded as lists of rows of rational intensity samples; numpy
  floating-point arithmetic is embedded as exact arithmetic on ℚ.
-/

deriving instance DecidableEq for Except

namespace Husc

/-- The error conditions of the design: `ShapeMismatchError`, `EmptyInputError`
and `ParameterError`. -/
inductive HuscError where
  | shapeMismatch
  | emptyInput
  | parameterError
deriving DecidableEq, Repr

/-- A raster image: a list of rows of samples.  numpy arrays are rectangular;
rectangularity is the separate predicate `Image.Rect`. -/
structure Image (α : Type) where
  data : List (List α)
deriving DecidableEq, Repr

namespace Image

/-- A constant-valued image of `h` rows and `w` columns. -/
def const (h w : ℕ) (v : α) : Image α :=
  ⟨List.replicate h (List.replicate w v)⟩

/-- Number of rows. -/
def height (im : Image α) : ℕ := im.data.length

/-- Number of columns (length of the first row; 0 for an empty image). -/
def width (im : Image α) : ℕ := (im.data.headD []).length

/-- The numpy shape `(rows, cols)`. -/
def shape (im : Image α) : ℕ × ℕ := (im.height, im.width)

/-- Rectangularity: every row has the image's width. -/
def Rect (im : Image α) : Prop := ∀ r ∈ im.data, r.length = im.width

instance (im : Image α) : Decidable im.Rect :=
  inferInstanceAs (Decidable (∀ r ∈ im.data, r.length = im.width))

/-- All samples of the image, row-major (numpy `ravel`). -/
def values (im : Image α) : List α := im.data.flatten

/-- Pointwise map over an image. -/
def map (f : α → β) (im : Image α) : Image β :=
  ⟨im.data.map (List.map f)⟩

/-- Pointwise combination of two images. -/
def zipWith (f : α → β → γ) (a : Image α) (b : Image β) : Image γ :=
  ⟨List.zipWith (List.zipWith f) a.data b.data⟩

/-- Sample at row `i`, column `j`, with a default outside the data. -/
def getD (im : Image α) (i j : ℕ) (d : α) : α :=
  (im.data.getD i []).getD j d

/-- Number of `true` pixels of a boolean mask (numpy `np.sum(mask)`). -/
def countTrue (im : Image Bool) : ℕ := im.values.countP id

/-- Maximum sample value, 0 for an empty image (numpy `field.max()` on the
always non-negative illumination fields this is applied to). -/
def maxVal (im : Image ℚ) : ℚ := im.values.foldr max 0

/-- Horizontal concatenation of two images (numpy `np.hstack`). -/
def hconcat (a b : Image α) : Image α :=
  ⟨List.zipWith (· ++ ·) a.data b.data⟩

/-- Vertical concatenation of two images (numpy `np.vstack`). -/
def vconcat (a b : Image α) : Image α :=
  ⟨a.data ++ b.data⟩

/-- The top-left `h × w` quadrant of an image. -/
def topLeft (im : Image α) (h w : ℕ) : Image α :=
  ⟨(im.data.take h).map (List.take w)⟩

/-- The top-right quadrant: first `h` rows, columns from `w` on. -/
def topRight (im : Image α) (h w : ℕ) : Image α :=
  ⟨(im.data.take h).map (List.drop w)⟩

/-- The bottom-left quadrant: rows from `h` on, first `w` columns. -/
def bottomLeft (im : Image α) (h w : ℕ) : Image α :=
  ⟨(im.data.drop h).map (List.take w)⟩

/-- The bottom-right quadrant: rows from `h` on, columns from `w` on. -/
def bottomRight (im : Image α) (h w : ℕ) : Image α :=
  ⟨(im.data.drop h).map (List.drop w)⟩

end Image

/-- Between-class score of splitting the sample values at threshold `t`:
weight-scaled squared difference of the two class means (Otsu's criterion,
scaled by the positive constant `n²`, which leaves the maximizer unchanged);
0 when a class is empty. -/
def classVarScore (vals : List ℚ) (t : ℚ) : ℚ :=
  let c0 := vals.filter (fun x => decide (x ≤ t))
  let c1 := vals.filter (fun x => decide (t < x))
  if c0.length = 0 ∨ c1.length = 0 then 0
  else ((c0.length : ℚ) * c1.length) *
    (c0.sum / c0.length - c1.sum / c1.length) ^ 2

/-- Modelled from the spec: the automatic global histogram-based threshold
(Otsu's method) of the Mask Estimator, whose source `husc.preprocess` is not
in this tree.  The threshold is the observed sample value maximizing the
between-class variance. -/
def otsu (vals : List ℚ) : ℚ :=
  let cands := vals.dedup
  cands.foldl
    (fun best t => if classVarScore vals best < classVarScore vals t then t
      else best)
    (cands.headD 0)

/-- The offsets `-r, …, r` of a square structuring element of radius `r`. -/
def nbhdOffsets (r : ℕ) : List ℤ :=
  (List.range (2 * r + 1)).map (fun k => (k : ℤ) - r)

/-- Sample at signed indices, with a default outside the image. -/
def Image.getZ (im : Image α) (i j : ℤ) (d : α) : α :=
  if 0 ≤ i ∧ 0 ≤ j then im.getD i.toNat j.toNat d else d

/-- Map with pixel coordinates. -/
def Image.mapIdx (f : ℕ → ℕ → α → β) (im : Image α) : Image β :=
  ⟨im.data.mapIdx (fun i row => row.mapIdx (fun j x => f i j x))⟩

/-- Morphological dilation with a square structuring element of radius `r`:
a pixel is set when any pixel within Chebyshev distance `r` is set
(out-of-bounds neighbours count as unset). -/
def dilate (im : Image Bool) (r : ℕ) : Image Bool :=
  im.mapIdx (fun i j _ =>
    (nbhdOffsets r).any (fun di => (nbhdOffsets r).any (fun dj =>
      im.getZ (i + di) (j + dj) false)))

/-- Morphological erosion with a square structuring element of radius `r`:
a pixel stays set only when every pixel within Chebyshev distance `r` is set
(out-of-bounds neighbours count as set). -/
def erodeMask (im : Image Bool) (r : ℕ) : Image Bool :=
  im.mapIdx (fun i j _ =>
    (nbhdOffsets r).all (fun di => (nbhdOffsets r).all (fun dj =>
      im.getZ (i + di) (j + dj) true)))

/-- Morphological closing: dilation followed by erosion. -/
def closing (im : Image Bool) (r : ℕ) : Image Bool :=
  erodeMask (dilate im r) r

/-- Modelled from the spec: the thresholding and morphology core of
`husc.preprocess`'s mask estimation (source not in this tree).  Pixels whose
intensity exceeds the Otsu threshold plus `offset` are flagged `true`; a
positive close radius applies morphological closing, a positive erode radius
a further erosion, and radius 0 is a no-op. -/
def maskCore (im : Image ℚ) (offset : ℤ) (closeR erodeR : ℕ) : Image Bool :=
  let t := otsu im.values + (offset : ℚ)
  let m0 := im.map (fun x => decide (t < x))
  let m1 := if 0 < closeR then closing m0 closeR else m0
  if 0 < erodeR then erodeMask m1 erodeR else m1

/-- Modelled from the spec: `estimate_mask(image, offset, close_radius,
erode_radius)` of the Mask Estimator (source not in this tree).  Radii are
validated at the component boundary: a negative radius fails with
`ParameterError` before the image is touched. -/
def estimate_mask (im : Image ℚ) (offset close_radius erode_radius : ℤ) :
    Except HuscError (Image Bool) :=
  if close_radius < 0 ∨ erode_radius < 0 then .error .parameterError
  else .ok (maskCore im offset close_radius.toNat erode_radius.toNat)

/-- Contribution of one image path to the mask count of `write_max_masks`:
0 when the file cannot be read (the item is skipped) or when the estimated
mask is trivial (all `false`), 1 when a non-trivial mask is written. -/
def mask_written (reader : String → Option (Image ℚ)) (offset : ℤ)
    (closeR erodeR : ℕ) (p : String) : ℕ :=
  match reader p with
  | none => 0
  | some im => if 0 < (maskCore im offset closeR erodeR).countTrue then 1
    else 0

/-- Modelled from the spec: `husc.preprocess.write_max_masks` as called by
`run_mask` in `main.py` (source not in this tree).  Reading is the I/O
collaborator, embedded as `reader`; an unreadable image is skipped and
counted as processed but not mask-written, and the batch never aborts.
Returns `(masks_written, images_processed)`. -/
def write_max_masks (reader : String → Option (Image ℚ))
    (images : List String) (offset close_radius erode_radius : ℤ) :
    Except HuscError (ℕ × ℕ) :=
  if close_radius < 0 ∨ erode_radius < 0 then .error .parameterError
  else .ok
    ((images.map
        (mask_written reader offset close_radius.toNat erode_radius.toNat)).sum,
      images.length)

/-- Clamp `x` into `[lo, hi]`. -/
def clampQ (lo hi x : ℚ) : ℚ := max lo (min x hi)

/-- Modelled from the spec: the value at quantile rank `q` of a sample list
(the shared stretch-limit utility's quantile; source not in this tree),
by sorted-order index; 0 on an empty list. -/
def quantileOf (q : ℚ) (vals : List ℚ) : ℚ :=
  let s := vals.mergeSort (fun a b => decide (a ≤ b))
  s.getD (min (q * vals.length).floor.toNat (vals.length - 1)) 0

/-- Modelled from the spec: the stretch-limit rescaling
`stretch(image, p, 1 - p)`, mapping the `p` and `1 - p` intensity quantiles
to 0 and 1 and clamping in between (source not in this tree). -/
def stretchIm (im : Image ℚ) (p : ℚ) : Image ℚ :=
  let lo := quantileOf p im.values
  let hi := quantileOf (1 - p) im.values
  if hi ≤ lo then im.map (fun _ => 0)
  else im.map (fun x => clampQ 0 1 ((x - lo) / (hi - lo)))

/-- Apply the output stretch only for a positive stretch fraction. -/
def stretchIfPos (s : ℚ) (im : Image ℚ) : Image ℚ :=
  if 0 < s then stretchIm im s else im

/-- Three-list pointwise combination, truncating at the shortest list. -/
def zipWith3 (f : α → β → γ → δ) : List α → List β → List γ → List δ
  | a :: as, b :: bs, c :: cs => f a b c :: zipWith3 f as bs cs
  | _, _, _ => []

/-- Pointwise combination of three images. -/
def Image.zipWith3 (f : α → β → γ → δ) (a : Image α) (b : Image β)
    (c : Image γ) : Image δ :=
  ⟨Husc.zipWith3 (Husc.zipWith3 f) a.data b.data c.data⟩

/-- Modelled from the spec: `husc.preprocess.correct_image_illumination` as
called by `run_illum` in `main.py` (source not in this tree).  The stretch
fraction is validated first (`ParameterError`), then the shapes of image,
field and mask must agree (`ShapeMismatchError`); the field is normalized to
peak 1 by dividing by its maximum, each pixel with a `true` mask entry is
divided by the normalized field, a `false` mask entry passes the pixel
through unmodified, and a positive `stretch_out` rescales the result. -/
def correct_illumination (im field : Image ℚ) (stretch_out : ℚ)
    (mask : Image Bool) : Except HuscError (Image ℚ) :=
  if stretch_out < 0 ∨ 1 < stretch_out then .error .parameterError
  else if field.shape = im.shape ∧ mask.shape = im.shape then
    .ok (stretchIfPos stretch_out
      (Image.zipWith3 (fun x f b => if b then x / f else x) im
        (field.map (fun x => x / field.maxVal)) mask))
  else .error .shapeMismatch

/-- The neighbourhood samples feeding the windowed quantile at pixel
`(i, j)`: all in-bounds values within Chebyshev distance `r` whose mask entry
is `false` (masked-`true` pixels are excluded as missing data). -/
def nbhdValues (im : Image ℚ) (mask : Image Bool) (r : ℕ) (i j : ℕ) :
    List ℚ :=
  ((nbhdOffsets r).map (fun di =>
    (nbhdOffsets r).filterMap (fun dj =>
      let ii := (i : ℤ) + di
      let jj := (j : ℤ) + dj
      if 0 ≤ ii ∧ ii < im.height ∧ 0 ≤ jj ∧
          jj < ((im.data.getD ii.toNat []).length : ℤ) ∧
          mask.getZ ii jj false = false then
        some (im.getZ ii jj 0)
      else none))).flatten

/-- Modelled from the spec: the windowed quantile filter of the Illumination
Estimator (source not in this tree): each pixel becomes the `q`-quantile of
its radius-`r` neighbourhood, masked pixels excluded. -/
def quantFilter (im : Image ℚ) (mask : Image Bool) (r : ℕ) (q : ℚ) :
    Image ℚ :=
  im.mapIdx (fun i j _ => quantileOf q (nbhdValues im mask r i j))

/-- Modelled from the spec: `husc.preprocess.find_background_illumination` /
`estimate_illumination` as called by `run_illum` in `main.py` (source not in
this tree).  Numeric parameters are validated at the component boundary
before any image is touched (`ParameterError`); an empty stack fails with
`EmptyInputError`; otherwise each image is optionally stretched, optionally
masked by the Mask Estimator, run through the windowed quantile filter, and
the per-image estimates are aggregated by pointwise minimum. -/
def estimate_illumination (images : List (Image ℚ)) (radius : ℤ)
    (quantile stretch_in : ℚ) (use_mask : Bool)
    (mask_offset mask_close mask_erode : ℤ) : Except HuscError (Image ℚ) :=
  if radius < 0 ∨ mask_close < 0 ∨ mask_erode < 0 ∨
      quantile < 0 ∨ 1 < quantile ∨ stretch_in < 0 ∨ 1 < stretch_in then
    .error .parameterError
  else
    match images with
    | [] => .error .emptyInput
    | im0 :: rest =>
      let est := fun im : Image ℚ =>
        let strim := if 0 < stretch_in then stretchIm im stretch_in else im
        let m : Image Bool :=
          if use_mask then
            maskCore strim mask_offset mask_close.toNat mask_erode.toNat
          else Image.const strim.height strim.width false
        quantFilter strim m radius.toNat quantile
      .ok ((rest.map est).foldl (Image.zipWith min) (est im0))

/-- Modelled from the spec: the per-group step of
`husc.preprocess.run_quadrant_stitch` (the module is not in this tree; only
its caller `run_stitch` in `main.py` is).  Four same-shaped tiles, given in
the documented traversal order top-left, top-right, bottom-left, bottom-right,
are placed at their quadrant positions by pure concatenation along both axes;
mismatched shapes fail with `ShapeMismatchError`. -/
def stitchGroup (tl tr bl br : Image α) : Except HuscError (Image α) :=
  if tl.shape = tr.shape ∧ tl.shape = bl.shape ∧ tl.shape = br.shape then
    .ok (Image.vconcat (Image.hconcat tl tr) (Image.hconcat bl br))
  else
    .error .shapeMismatch

/-- Consecutive runs of four of a flat sequence (a trailing remainder shorter
than four is dropped; the contract requires a multiple of four). -/
def groupsOf4 : List α → List (α × α × α × α)
  | a :: b :: c :: d :: rest => (a, b, c, d) :: groupsOf4 rest
  | _ => []

/-- Modelled from the spec: `husc.preprocess.run_quadrant_stitch` as called by
`run_stitch` in `main.py`.  Each consecutive group of four tiles yields one
composite; a group whose shapes disagree fails alone with
`ShapeMismatchError`, leaving the other groups' results intact. -/
def stitch_quadrants (tiles : List (Image α)) : List (Except HuscError (Image α)) :=
  (groupsOf4 tiles).map (fun g => stitchGroup g.1 g.2.1 g.2.2.1 g.2.2.2)

/-- The mask chosen by the `run_illum` loop in `main.py` for one image:
`mh.imread(mask_fn).astype(bool)` when `<basename>.mask.tif` exists on disk
(embedded as `some stored`), otherwise the default
`np.ones(im.shape, bool)` — an all-`True` mask of the image's shape. -/
def illum_item_mask (im : Image ℚ) (maskOpt : Option (Image Bool)) :
    Image Bool :=
  match maskOpt with
  | some stored => stored
  | none => Image.const im.height im.width true

/-- One iteration of the `run_illum` loop in `main.py`: correct the image
against the illumination field `il` with the per-image mask (stored or
default). -/
def run_illum_item (il : Image ℚ) (stretch_out : ℚ)
    (item : Image ℚ × Option (Image Bool)) : Except HuscError (Image ℚ) :=
  correct_illumination item.1 il stretch_out (illum_item_mask item.1 item.2)

/-- The `run_illum` batch loop of `main.py` (lines 191–198): images are
corrected and written one by one; the loop body has no exception handling,
so an error raised for one image propagates and stops the loop, leaving the
remaining images unprocessed.  Returns the outputs written before the first
failure, and the failure if one occurred. -/
def run_illum_batch (il : Image ℚ) (stretch_out : ℚ) :
    List (Image ℚ × Option (Image Bool)) →
      List (Image ℚ) × Option HuscError
  | [] => ([], none)
  | item :: rest =>
    match run_illum_item il stretch_out item with
    | .error e => ([], some e)
    | .ok out =>
      let r := run_illum_batch il stretch_out rest
      (out :: r.1, r.2)

/-- The subcommands registered on the argparse subparsers in `main.py`. -/
def subcommands : List String :=
  ["crop", "mask", "illum", "stitch", "cat", "features"]

/-- The words Python 2.7 argparse resolves to the help action of the root
parser in `main.py`: the short option `-h`, the long option `--help`, and —
because argparse prefix-abbreviates long options and `--help` is the root
parser's only long option — every unambiguous prefix `--h`, `--he`, `--hel`
of it.  (`--` alone is the positional separator, not an option, and a word
carrying an explicit argument such as `--help=x` is an error, so neither
resolves to help.) -/
def helpFlags : List String := ["-h", "--h", "--he", "--hel", "--help"]

/-- The outcome of one invocation of `main()`:
`exit c` for `SystemExit(c)` (from argparse or the explicit `sys.exit(2)`),
`ran cmd` for dispatching to one of the `run_*` handlers, and `indexError`
for an uncaught out-of-range access of `sys.argv`. -/
inductive CliOutcome where
  | exit (code : ℕ)
  | ran (cmd : String)
  | indexError
deriving DecidableEq, Repr

/-- The Python 2 argparse contract of `parser.parse_args()` in `main.py`, at
the granularity the driver depends on: with no word at `argv[1]` it errors
with exit status 2 ("too few arguments"); a help word — including the
prefix abbreviations of `--help` listed in `helpFlags` — prints help and
exits with status 0; any other word that is not a registered subcommand
errors with exit status 2 ("invalid choice" for a non-option word, "too few
arguments" or an option error for an unknown option word); a registered
subcommand parses on (the per-subcommand argument handling is an
out-of-scope dependency and is abstracted as success).  The `Except` error
carries the `SystemExit` status. -/
def parse_args (argv : List String) : Except ℕ Unit :=
  match argv[1]? with
  | none => .error 2
  | some w =>
    if w ∈ helpFlags then .error 0
    else if w ∈ subcommands then .ok () else .error 2

/-- `get_command` from `main.py`: returns `argv[1]` unconditionally; `none`
embeds the `IndexError` raised when the vector is too short. -/
def get_command (argv : List String) : Option String := argv[1]?

/-- `main()` from `main.py`: parse the arguments, then dispatch on
`get_command(sys.argv)` through the if/elif chain; the final `else` writes
an error and exits with status 2. -/
def main (argv : List String) : CliOutcome :=
  match parse_args argv with
  | .error c => .exit c
  | .ok _ =>
    match get_command argv with
    | none => .indexError
    | some cmd => if cmd ∈ subcommands then .ran cmd else .exit 2

lemma zipWith_replicate_eq (f : α → β → γ) (n : ℕ) (a : α) (b : β) :
    List.zipWith f (List.replicate n a) (List.replicate n b) =
      List.replicate n (f a b) := by
  simp

lemma headD_replicate (n : ℕ) (a d : α) (hn : 0 < n) :
    (List.replicate n a).headD d = a := by
  cases n with
  | zero => exact absurd hn (by omega)
  | succ m => simp [List.replicate_succ]

lemma headD_append_left (l1 l2 : List α) (d : α) (h : l1 ≠ []) :
    (l1 ++ l2).headD d = l1.headD d := by
  cases l1 with
  | nil => exact absurd rfl h
  | cons x xs => simp

lemma const_shape (h w : ℕ) (v : α) (hh : 0 < h) :
    (Image.const h w v).shape = (h, w) := by
  cases h with
  | zero => exact absurd hh (by omega)
  | succ m =>
    simp [Image.const, Image.shape, Image.height, Image.width,
          List.replicate_succ]

lemma groupsOf4_length (k : ℕ) :
    ∀ l : List α, l.length = 4 * k → (groupsOf4 l).length = k := by
  induction k with
  | zero =>
    intro l hl
    have : l = [] := List.length_eq_zero.mp (by omega)
    subst this
    simp [groupsOf4]
  | succ m ih =>
    intro l hl
    match l with
    | [] =>
      exact absurd hl (by simp only [List.length_nil]; omega)
    | [a] =>
      exact absurd hl (by simp only [List.length_cons, List.length_nil]; omega)
    | [a, b] =>
      exact absurd hl (by simp only [List.length_cons, List.length_nil]; omega)
    | [a, b, c] =>
      exact absurd hl (by simp only [List.length_cons, List.length_nil]; omega)
    | a :: b :: c :: d :: rest =>
      have hr : rest.length = 4 * m := by
        simp only [List.length_cons] at hl; omega
      simp [groupsOf4, ih rest hr]

lemma stitchGroup_const (v1 v2 v3 v4 : ℚ) :
    stitchGroup (Image.const 10 10 v1) (Image.const 10 10 v2)
        (Image.const 10 10 v3) (Image.const 10 10 v4) =
      .ok ⟨List.replicate 10 (List.replicate 10 v1 ++ List.replicate 10 v2) ++
           List.replicate 10 (List.replicate 10 v3 ++ List.replicate 10 v4)⟩ := by
  rw [stitchGroup, if_pos]
  · simp [Image.vconcat, Image.hconcat, Image.const, zipWith_replicate_eq]
  · refine ⟨?_, ?_, ?_⟩ <;>
      simp [const_shape _ _ _ (by norm_num : (0:ℕ) < 10)]

/-- C1.  Stitch geometry: four same-shaped constant 10×10 tiles with distinct
values produce exactly one 20×20 composite whose four 10×10 quadrants equal
the inputs in the order top-left, top-right, bottom-left, bottom-right; and a
flat input of `4 * k` tiles produces exactly `k` composites, each group of
four mapped, in input order, to the stitch of that group. -/
theorem C1_stitch_geometry :
    (∀ v1 v2 v3 v4 : ℚ, v1 ≠ v2 → v1 ≠ v3 → v1 ≠ v4 → v2 ≠ v3 → v2 ≠ v4 →
      v3 ≠ v4 →
      ∃ comp : Image ℚ,
        stitch_quadrants [Image.const 10 10 v1, Image.const 10 10 v2,
          Image.const 10 10 v3, Image.const 10 10 v4] = [.ok comp] ∧
        comp.shape = (20, 20) ∧
        comp.topLeft 10 10 = Image.const 10 10 v1 ∧
        comp.topRight 10 10 = Image.const 10 10 v2 ∧
        comp.bottomLeft 10 10 = Image.const 10 10 v3 ∧
        comp.bottomRight 10 10 = Image.const 10 10 v4) ∧
    (∀ (tiles : List (Image ℚ)) (k : ℕ), tiles.length = 4 * k →
      (stitch_quadrants tiles).length = k) ∧
    (∀ (a b c d : Image ℚ) (rest : List (Image ℚ)),
      stitch_quadrants (a :: b :: c :: d :: rest) =
        stitchGroup a b c d :: stitch_quadrants rest) := by
  refine ⟨?_, ?_, ?_⟩
  · intro v1 v2 v3 v4 _ _ _ _ _ _
    refine ⟨⟨List.replicate 10 (List.replicate 10 v1 ++ List.replicate 10 v2) ++
             List.replicate 10 (List.replicate 10 v3 ++ List.replicate 10 v4)⟩,
            ?_, ?_, ?_, ?_, ?_, ?_⟩
    · simp [stitch_quadrants, groupsOf4, stitchGroup_const]
    · rw [Image.shape, Image.height, Image.width,
          headD_append_left _ _ _ (by simp),
          headD_replicate _ _ _ (by norm_num : (0:ℕ) < 10)]
      simp
    · simp [Image.topLeft, Image.const,
            List.take_left' (by simp : (List.replicate 10
              (List.replicate 10 v1 ++ List.replicate 10 v2)).length = 10),
            List.take_left' (by simp : (List.replicate 10 (v1 : ℚ)).length = 10)]
    · simp [Image.topRight, Image.const,
            List.take_left' (by simp : (List.replicate 10
              (List.replicate 10 v1 ++ List.replicate 10 v2)).length = 10),
            List.drop_left' (by simp : (List.replicate 10 (v1 : ℚ)).length = 10)]
    · simp [Image.bottomLeft, Image.const,
            List.drop_left' (by simp : (List.replicate 10
              (List.replicate 10 v1 ++ List.replicate 10 v2)).length = 10),
            List.take_left' (by simp : (List.replicate 10 (v3 : ℚ)).length = 10)]
    · simp [Image.bottomRight, Image.const,
            List.drop_left' (by simp : (List.replicate 10
              (List.replicate 10 v1 ++ List.replicate 10 v2)).length = 10),
            List.drop_left' (by simp : (List.replicate 10 (v3 : ℚ)).length = 10)]
  · intro tiles k hk
    simp [stitch_quadrants, groupsOf4_length k tiles hk]
  · intro a b c d rest
    simp [stitch_quadrants, groupsOf4]

/-- Witness for C1 at the concrete distinct values 1, 2, 3, 4. -/
theorem C1_stitch_geometry_witness :
    ∃ comp : Image ℚ,
      stitch_quadrants [Image.const 10 10 1, Image.const 10 10 2,
        Image.const 10 10 3, Image.const 10 10 4] = [.ok comp] ∧
      comp.shape = (20, 20) ∧
      comp.topLeft 10 10 = Image.const 10 10 1 ∧
      comp.topRight 10 10 = Image.const 10 10 2 ∧
      comp.bottomLeft 10 10 = Image.const 10 10 3 ∧
      comp.bottomRight 10 10 = Image.const 10 10 4 :=
  C1_stitch_geometry.1 1 2 3 4 (by decide) (by decide) (by decide)
    (by decide) (by decide) (by decide)

/-- C2.  Empty-stack rejection: illumination estimation on an empty image
stack with any valid radius/quantile/stretch/mask parameters fails with
`EmptyInputError` instead of returning a field. -/
theorem C2_empty_stack_rejection (radius : ℤ) (quantile stretch_in : ℚ)
    (use_mask : Bool) (mask_offset mask_close mask_erode : ℤ)
    (hr : 0 ≤ radius) (hq0 : 0 ≤ quantile) (hq1 : quantile ≤ 1)
    (hs0 : 0 ≤ stretch_in) (hs1 : stretch_in ≤ 1)
    (hc : 0 ≤ mask_close) (he : 0 ≤ mask_erode) :
    estimate_illumination [] radius quantile stretch_in use_mask mask_offset
      mask_close mask_erode = .error .emptyInput := by
  simp only [estimate_illumination]
  rw [if_neg (by push_neg; exact ⟨hr, hc, he, hq0, hq1, hs0, hs1⟩)]

/-- Witness for C2 at the default radius 51 and valid quantile/stretch 0. -/
theorem C2_empty_stack_rejection_witness :
    estimate_illumination [] 51 0 0 false 0 0 0 = .error .emptyInput :=
  C2_empty_stack_rejection 51 0 0 false 0 0 0 (by decide) (by decide)
    (by decide) (by decide) (by decide) (by decide) (by decide)

lemma maskCore_zero (im : Image ℚ) (o : ℤ) :
    maskCore im o 0 0 = im.map (fun x => decide (otsu im.values + o < x)) := by
  simp [maskCore]

lemma countTrue_map (im : Image ℚ) (p : ℚ → Bool) :
    (im.map p).countTrue = im.values.countP p := by
  simp only [Image.countTrue, Image.values, Image.map]
  rw [← List.map_flatten, List.countP_map]
  rfl

/-- C4.  Monotonic offset effect: with close and erode radii 0, raising the
mask threshold offset never increases the number of `true` pixels. -/
theorem C4_mask_offset_monotone (im : Image ℚ) (o1 o2 : ℤ) (h : o1 ≤ o2) :
    ∃ m1 m2 : Image Bool,
      estimate_mask im o1 0 0 = .ok m1 ∧ estimate_mask im o2 0 0 = .ok m2 ∧
        m2.countTrue ≤ m1.countTrue := by
  refine ⟨maskCore im o1 0 0, maskCore im o2 0 0, ?_, ?_, ?_⟩
  · simp [estimate_mask]
  · simp [estimate_mask]
  · rw [maskCore_zero, maskCore_zero, countTrue_map, countTrue_map]
    refine List.countP_mono_left ?_
    intro x _ hx
    simp only [decide_eq_true_eq] at hx ⊢
    have hoq : (o1 : ℚ) ≤ (o2 : ℚ) := by exact_mod_cast h
    linarith

/-- Witness for C4 on a concrete 2×2 image with offsets 0 ≤ 1. -/
theorem C4_mask_offset_monotone_witness :
    ∃ m1 m2 : Image Bool,
      estimate_mask ⟨[[0, 1], [1, 0]]⟩ 0 0 0 = .ok m1 ∧
      estimate_mask ⟨[[0, 1], [1, 0]]⟩ 1 0 0 = .ok m2 ∧
        m2.countTrue ≤ m1.countTrue :=
  C4_mask_offset_monotone ⟨[[0, 1], [1, 0]]⟩ 0 1 (by decide)

lemma mask_written_le_one (reader : String → Option (Image ℚ)) (o : ℤ)
    (c e : ℕ) (p : String) : mask_written reader o c e p ≤ 1 := by
  unfold mask_written
  cases reader p with
  | none => exact Nat.zero_le 1
  | some im =>
    show (if 0 < (maskCore im o c e).countTrue then 1 else 0) ≤ 1
    split <;> omega

lemma sum_map_le_length (f : String → ℕ) (hf : ∀ p, f p ≤ 1) :
    ∀ l : List String, (l.map f).sum ≤ l.length := by
  intro l
  induction l with
  | nil => simp
  | cons x xs ih =>
    simp only [List.map_cons, List.sum_cons, List.length_cons]
    have := hf x
    omega

/-- C5.  Batch mask estimation isolates per-image read failures: for valid
radii the batch always returns `(masks_written, images_processed)` with
`images_processed` equal to the full batch size (no abort on a bad file),
`masks_written ≤ images_processed`, and an unreadable image contributes
nothing to the written count while still being counted as processed. -/
theorem C5_mask_batch_isolation (reader : String → Option (Image ℚ))
    (images : List String) (offset close_radius erode_radius : ℤ)
    (hc : 0 ≤ close_radius) (he : 0 ≤ erode_radius) :
    write_max_masks reader images offset close_radius erode_radius =
      .ok ((images.map (mask_written reader offset close_radius.toNat
              erode_radius.toNat)).sum,
            images.length) ∧
    (images.map (mask_written reader offset close_radius.toNat
        erode_radius.toNat)).sum ≤ images.length ∧
    ∀ p, reader p = none →
      mask_written reader offset close_radius.toNat erode_radius.toNat p
        = 0 := by
  refine ⟨?_, ?_, ?_⟩
  · rw [write_max_masks, if_neg (by push_neg; exact ⟨hc, he⟩)]
  · exact sum_map_le_length _ (fun p => mask_written_le_one _ _ _ _ p) images
  · intro p hp
    unfold mask_written
    rw [hp]

/-- Witness for C5 on a concrete batch where the second path is unreadable. -/
theorem C5_mask_batch_isolation_witness :
    write_max_masks
        (fun p => if p = "a.tif" then some ⟨[[0, 1]]⟩ else none)
        ["a.tif", "broken.tif"] 0 0 0 =
      .ok ((["a.tif", "broken.tif"].map
              (mask_written
                (fun p => if p = "a.tif" then some ⟨[[0, 1]]⟩ else none)
                0 0 0)).sum,
            2) ∧
    (["a.tif", "broken.tif"].map
        (mask_written (fun p => if p = "a.tif" then some ⟨[[0, 1]]⟩ else none)
          0 0 0)).sum ≤ 2 ∧
    ∀ p, (if p = "a.tif" then some (⟨[[0, 1]]⟩ : Image ℚ) else none) = none →
      mask_written (fun q => if q = "a.tif" then some ⟨[[0, 1]]⟩ else none)
        0 0 0 p = 0 :=
  C5_mask_batch_isolation
    (fun p => if p = "a.tif" then some ⟨[[0, 1]]⟩ else none)
    ["a.tif", "broken.tif"] 0 0 0 (by decide) (by decide)

/-- C6.  Parameter validation at the component boundary: a negative radius or
a quantile/stretch fraction outside `[0, 1]` makes the Mask Estimator, the
Illumination Estimator and the Illumination Corrector fail with
`ParameterError` for every input, before any image is touched. -/
theorem C6_parameter_validation :
    (∀ (im : Image ℚ) (offset close_radius erode_radius : ℤ),
      close_radius < 0 ∨ erode_radius < 0 →
      estimate_mask im offset close_radius erode_radius =
        .error .parameterError) ∧
    (∀ (images : List (Image ℚ)) (radius : ℤ) (quantile stretch_in : ℚ)
        (use_mask : Bool) (mask_offset mask_close mask_erode : ℤ),
      radius < 0 ∨ mask_close < 0 ∨ mask_erode < 0 ∨ quantile < 0 ∨
        1 < quantile ∨ stretch_in < 0 ∨ 1 < stretch_in →
      estimate_illumination images radius quantile stretch_in use_mask
        mask_offset mask_close mask_erode = .error .parameterError) ∧
    (∀ (im field : Image ℚ) (stretch_out : ℚ) (mask : Image Bool),
      stretch_out < 0 ∨ 1 < stretch_out →
      correct_illumination im field stretch_out mask =
        .error .parameterError) := by
  refine ⟨?_, ?_, ?_⟩
  · intro im offset close_radius erode_radius h
    simp only [estimate_mask]
    rw [if_pos h]
  · intro images radius quantile stretch_in use_mask mo mc me h
    simp only [estimate_illumination]
    rw [if_pos h]
  · intro im field stretch_out mask h
    simp only [correct_illumination]
    rw [if_pos h]

/-- Witness for C6: each component rejects a concrete bad parameter. -/
theorem C6_parameter_validation_witness :
    estimate_mask ⟨[[1]]⟩ 0 (-1) 0 = .error .parameterError ∧
    estimate_illumination [⟨[[1]]⟩] (-1) 0 0 false 0 0 0 =
      .error .parameterError ∧
    correct_illumination ⟨[[1]]⟩ ⟨[[1]]⟩ 2 ⟨[[true]]⟩ =
      .error .parameterError :=
  ⟨C6_parameter_validation.1 ⟨[[1]]⟩ 0 (-1) 0 (by decide),
   C6_parameter_validation.2.1 [⟨[[1]]⟩] (-1) 0 0 false 0 0 0 (by decide),
   C6_parameter_validation.2.2 ⟨[[1]]⟩ ⟨[[1]]⟩ 2 ⟨[[true]]⟩ (by decide)⟩

lemma foldr_max_replicate (k : ℚ) (hk : 0 ≤ k) :
    ∀ n : ℕ, 0 < n → (List.replicate n k).foldr max 0 = k := by
  intro n
  induction n with
  | zero => intro h; exact absurd h (by omega)
  | succ m ih =>
    intro _
    rw [List.replicate_succ, List.foldr_cons]
    cases Nat.eq_zero_or_pos m with
    | inl h0 =>
      subst h0
      simp [max_eq_left hk]
    | inr hpos =>
      rw [ih hpos, max_self]

lemma const_values (h w : ℕ) (v : α) :
    (Image.const h w v).values = List.replicate (h * w) v := by
  induction h with
  | zero => simp [Image.const, Image.values]
  | succ m ih =>
    simp only [Image.const, Image.values, List.replicate_succ,
      List.flatten_cons] at *
    rw [ih, ← List.replicate_add]
    congr 1
    ring

lemma maxVal_const (h w : ℕ) (k : ℚ) (hk : 0 ≤ k) (hh : 0 < h) (hw : 0 < w) :
    (Image.const h w k).maxVal = k := by
  rw [Image.maxVal, const_values]
  exact foldr_max_replicate k hk (h * w) (Nat.mul_pos hh hw)

lemma const_map (h w : ℕ) (v : α) (f : α → β) :
    (Image.const h w v).map f = Image.const h w (f v) := by
  simp [Image.const, Image.map]

lemma stretchIfPos_zero (im : Image ℚ) : stretchIfPos 0 im = im := by
  simp [stretchIfPos]

lemma zipWith3_replicate_right (f : α → β → γ → α) (b : β) (c : γ)
    (hf : ∀ x, f x b c = x) :
    ∀ l : List α, zipWith3 f l (List.replicate l.length b)
      (List.replicate l.length c) = l := by
  intro l
  induction l with
  | nil => rfl
  | cons x xs ih =>
    simp only [List.length_cons, List.replicate_succ, zipWith3, hf x]
    rw [ih]

lemma zipWith3_rows (f : α → β → γ → α) (b : β) (c : γ)
    (hf : ∀ x, f x b c = x) (w : ℕ) :
    ∀ rows : List (List α), (∀ r ∈ rows, r.length = w) →
      zipWith3 (zipWith3 f) rows
        (List.replicate rows.length (List.replicate w b))
        (List.replicate rows.length (List.replicate w c)) = rows := by
  intro rows
  induction rows with
  | nil => intro _; rfl
  | cons r rs ih =>
    intro hr
    have hrlen : r.length = w := hr r (by simp)
    simp only [List.length_cons, List.replicate_succ, zipWith3]
    rw [ih (fun x hx => hr x (by simp [hx]))]
    congr 1
    rw [← hrlen]
    exact zipWith3_replicate_right f b c hf r

lemma image_zipWith3_const (f : ℚ → β → γ → ℚ) (b : β) (c : γ)
    (hf : ∀ x, f x b c = x) (im : Image ℚ) (hrect : im.Rect) :
    Image.zipWith3 f im (Image.const im.height im.width b)
      (Image.const im.height im.width c) = im := by
  obtain ⟨rows⟩ := im
  simp only [Image.zipWith3, Image.const, Image.height]
  congr 1
  exact zipWith3_rows f b c hf _ rows hrect

/-- C3.  Correction round-trip under a constant field: with a uniform field
`k > 0`, output stretch 0 and an all-`true` mask, the corrector first
normalizes the field by its maximum (so the constant field becomes the
all-ones field) and then divides, returning the image unchanged. -/
theorem C3_constant_field_correction (im : Image ℚ) (k : ℚ)
    (hrect : im.Rect) (hh : 0 < im.height) (hw : 0 < im.width) (hk : 0 < k) :
    correct_illumination im (Image.const im.height im.width k) 0
      (Image.const im.height im.width true) = .ok im := by
  simp only [correct_illumination]
  rw [if_neg (by norm_num),
      if_pos ⟨by rw [const_shape _ _ _ hh]; rfl,
              by rw [const_shape _ _ _ hh]; rfl⟩]
  rw [maxVal_const _ _ _ (le_of_lt hk) hh hw]
  simp only [const_map]
  rw [div_self (ne_of_gt hk)]
  rw [image_zipWith3_const _ _ _ (fun x => by simp) im hrect]
  rw [stretchIfPos_zero]

/-- Witness for C3 on a concrete 2×2 image with constant field 5. -/
theorem C3_constant_field_correction_witness :
    correct_illumination ⟨[[1, 2], [3, 4]]⟩ (Image.const 2 2 5) 0
      (Image.const 2 2 true) = .ok ⟨[[1, 2], [3, 4]]⟩ :=
  C3_constant_field_correction ⟨[[1, 2], [3, 4]]⟩ 5 (by decide) (by decide)
    (by decide) (by decide)

lemma getD_map_of_lt (f : α → β) (l : List α) (i : ℕ) (hi : i < l.length)
    (d : β) (d0 : α) : (l.map f).getD i d = f (l.getD i d0) := by
  induction l generalizing i with
  | nil => simp at hi
  | cons x xs ih =>
    cases i with
    | zero => rfl
    | succ j =>
      simp only [List.map_cons, List.getD_cons_succ]
      exact ih j (by simpa using hi)

lemma getD_zipWith3_of_lt (f : α → β → γ → δ) (a : List α) (b : List β)
    (c : List γ) (i : ℕ) (ha : i < a.length) (hb : i < b.length)
    (hc : i < c.length) (d : δ) (da : α) (db : β) (dc : γ) :
    (zipWith3 f a b c).getD i d =
      f (a.getD i da) (b.getD i db) (c.getD i dc) := by
  induction a generalizing b c i with
  | nil => simp at ha
  | cons x xs ih =>
    cases b with
    | nil => simp at hb
    | cons y ys =>
      cases c with
      | nil => simp at hc
      | cons z zs =>
        cases i with
        | zero => rfl
        | succ j =>
          simp only [zipWith3, List.getD_cons_succ]
          exact ih ys zs j (by simpa using ha) (by simpa using hb)
            (by simpa using hc)

lemma getD_replicate_of_lt (n : ℕ) (a d : α) (i : ℕ) (hi : i < n) :
    (List.replicate n a).getD i d = a := by
  rw [List.getD_eq_getElem _ _ (by simpa using hi)]
  simp

lemma getD_mem_of_lt (l : List α) (i : ℕ) (d : α) (hi : i < l.length) :
    l.getD i d ∈ l := by
  rw [List.getD_eq_getElem _ _ hi]
  exact List.getElem_mem hi

lemma image_getD_zipWith3 (f : α → β → γ → δ) (a : Image α) (b : Image β)
    (c : Image γ) (i j : ℕ) (dd : δ) (da : α) (db : β) (dc : γ)
    (hia : i < a.data.length) (hib : i < b.data.length)
    (hic : i < c.data.length)
    (hja : j < (a.data.getD i []).length)
    (hjb : j < (b.data.getD i []).length)
    (hjc : j < (c.data.getD i []).length) :
    (Image.zipWith3 f a b c).getD i j dd =
      f (a.getD i j da) (b.getD i j db) (c.getD i j dc) := by
  simp only [Image.getD, Image.zipWith3]
  rw [getD_zipWith3_of_lt (zipWith3 f) a.data b.data c.data i hia hib hic
      [] [] [] []]
  rw [getD_zipWith3_of_lt f _ _ _ j hja hjb hjc dd da db dc]

lemma image_getD_map (f : α → β) (im : Image α) (i j : ℕ) (d : β) (d0 : α)
    (hi : i < im.data.length) (hj : j < (im.data.getD i []).length) :
    (im.map f).getD i j d = f (im.getD i j d0) := by
  simp only [Image.getD, Image.map]
  rw [getD_map_of_lt (List.map f) im.data i hi [] []]
  rw [getD_map_of_lt f _ j hj d d0]

lemma image_getD_const (h w : ℕ) (v : α) (i j : ℕ) (d : α) (hi : i < h)
    (hj : j < w) : (Image.const h w v).getD i j d = v := by
  simp only [Image.getD, Image.const]
  rw [getD_replicate_of_lt h _ [] i hi, getD_replicate_of_lt w v d j hj]

/-- C9.  In the `run_illum` loop, an image without a stored
`<basename>.mask.tif` gets the default all-`True` mask of its own shape, so
the correction formula — pixel divided by the max-normalized field — is
applied at every pixel of the image (no pixel is passed through on the
mask's `false` branch). -/
theorem C9_default_mask_all_corrected (im il : Image ℚ)
    (hrectim : im.Rect) (hrectil : il.Rect)
    (hsh : il.shape = im.shape) (hh : 0 < im.height) :
    illum_item_mask im none = Image.const im.height im.width true ∧
    ∃ out : Image ℚ,
      run_illum_item il 0 (im, none) = .ok out ∧
      ∀ i j, i < im.height → j < im.width →
        out.getD i j 0 = im.getD i j 0 / (il.getD i j 0 / il.maxVal) := by
  have hilh : il.height = im.height := congrArg Prod.fst hsh
  have hilw : il.width = im.width := congrArg Prod.snd hsh
  refine ⟨rfl,
    Image.zipWith3 (fun x f b => if b then x / f else x) im
      (il.map (fun x => x / il.maxVal)) (Image.const im.height im.width true),
    ?_, ?_⟩
  · show correct_illumination im il 0 (Image.const im.height im.width true) =
      Except.ok (Image.zipWith3 (fun x f b => if b then x / f else x) im
        (il.map (fun x => x / il.maxVal))
        (Image.const im.height im.width true))
    simp only [correct_illumination]
    rw [if_neg (by norm_num),
        if_pos ⟨hsh, by rw [const_shape _ _ _ hh]; rfl⟩]
    rw [stretchIfPos_zero]
  · intro i j hi hj
    have hi1 : i < im.data.length := hi
    have hlil : il.data.length = im.height := hilh
    have hi2 : i < il.data.length := by omega
    have hrowim : (im.data.getD i []).length = im.width :=
      hrectim _ (getD_mem_of_lt im.data i [] hi1)
    have hrowil : (il.data.getD i []).length = im.width := by
      rw [hrectil _ (getD_mem_of_lt il.data i [] hi2)]
      exact hilw
    have hmaplen : i < (il.map (fun x => x / il.maxVal)).data.length := by
      simpa [Image.map] using hi2
    have hconlen : i < (Image.const im.height im.width true).data.length := by
      simpa [Image.const] using hi
    have hmaprow :
        j < ((il.map (fun x => x / il.maxVal)).data.getD i []).length := by
      show j < ((il.data.map (List.map (fun x => x / il.maxVal))).getD i []).length
      rw [getD_map_of_lt (List.map (fun x => x / il.maxVal)) il.data i hi2 [] []]
      rw [List.length_map, hrowil]
      exact hj
    have hconrow :
        j < ((Image.const im.height im.width true).data.getD i []).length := by
      show j < ((List.replicate im.height (List.replicate im.width true)).getD
        i []).length
      rw [getD_replicate_of_lt im.height _ [] i hi]
      simpa using hj
    rw [image_getD_zipWith3 _ _ _ _ i j 0 0 0 false hi1 hmaplen hconlen
        (by rw [hrowim]; exact hj) hmaprow hconrow]
    rw [image_getD_map _ _ i j 0 0 hi2 (by rw [hrowil]; exact hj)]
    rw [image_getD_const im.height im.width true i j false hi hj]
    rw [if_pos rfl]

/-- Witness for C9 on a concrete 2×2 image and 2×2 field with no stored
mask. -/
theorem C9_default_mask_all_corrected_witness :
    illum_item_mask (⟨[[1, 2], [3, 4]]⟩ : Image ℚ) none =
      Image.const 2 2 true ∧
    ∃ out : Image ℚ,
      run_illum_item ⟨[[2, 2], [2, 2]]⟩ 0 (⟨[[1, 2], [3, 4]]⟩, none) =
        .ok out ∧
      ∀ i j, i < 2 → j < 2 →
        out.getD i j 0 =
          (⟨[[1, 2], [3, 4]]⟩ : Image ℚ).getD i j 0 /
            ((⟨[[2, 2], [2, 2]]⟩ : Image ℚ).getD i j 0 /
              (⟨[[2, 2], [2, 2]]⟩ : Image ℚ).maxVal) :=
  C9_default_mask_all_corrected ⟨[[1, 2], [3, 4]]⟩ ⟨[[2, 2], [2, 2]]⟩
    (by decide) (by decide) (by decide) (by decide)

/-- C7 counterexample: in the `run_illum` batch of `main.py` a corrector
shape mismatch is not isolated to the single operation.  With a first image
whose stored mask has the wrong shape and a second image that corrects fine
on its own, the loop aborts at the first item with `ShapeMismatchError` and
produces no output at all — the remaining image of the batch is never
processed, so the failure is fatal to the batch. -/
theorem C7_counterexample :
    run_illum_batch ⟨[[1, 1], [1, 1]]⟩ 0
        [(⟨[[1, 2], [3, 4]]⟩, some ⟨[[true]]⟩), (⟨[[5, 6], [7, 8]]⟩, none)] =
      ([], some .shapeMismatch) ∧
    ∃ out : Image ℚ,
      run_illum_item ⟨[[1, 1], [1, 1]]⟩ 0 (⟨[[5, 6], [7, 8]]⟩, none) =
        .ok out := by
  refine ⟨by decide, ⟨_, rfl⟩⟩

/-- C7 (amended).  Mismatched shapes make the Illumination Corrector and the
Quadrant Stitcher fail with `ShapeMismatchError`.  For the stitcher the
failure is per group: each group of four is stitched independently of the
others.  For the corrector inside the `run_illum` batch, however, the error
aborts the loop: the items after the failing one are left unprocessed. -/
theorem C7_shape_mismatch :
    (∀ (im field : Image ℚ) (stretch_out : ℚ) (mask : Image Bool),
      ¬(stretch_out < 0 ∨ 1 < stretch_out) →
      ¬(field.shape = im.shape ∧ mask.shape = im.shape) →
      correct_illumination im field stretch_out mask =
        .error .shapeMismatch) ∧
    (∀ tl tr bl br : Image ℚ,
      ¬(tl.shape = tr.shape ∧ tl.shape = bl.shape ∧ tl.shape = br.shape) →
      stitchGroup tl tr bl br = .error .shapeMismatch) ∧
    (∀ (a b c d : Image ℚ) (rest : List (Image ℚ)),
      stitch_quadrants (a :: b :: c :: d :: rest) =
        stitchGroup a b c d :: stitch_quadrants rest) ∧
    (∀ (il : Image ℚ) (s : ℚ) (item : Image ℚ × Option (Image Bool))
        (rest : List (Image ℚ × Option (Image Bool))) (e : HuscError),
      run_illum_item il s item = .error e →
      run_illum_batch il s (item :: rest) = ([], some e)) := by
  refine ⟨?_, ?_, ?_, ?_⟩
  · intro im field stretch_out mask h1 h2
    simp only [correct_illumination]
    rw [if_neg h1, if_neg h2]
  · intro tl tr bl br h
    simp only [stitchGroup]
    rw [if_neg h]
  · intro a b c d rest
    simp [stitch_quadrants, groupsOf4]
  · intro il s item rest e h
    simp only [run_illum_batch]
    rw [h]

/-- Witness for C7's amended statement at concrete mismatched inputs. -/
theorem C7_shape_mismatch_witness :
    correct_illumination ⟨[[1, 2]]⟩ ⟨[[1]]⟩ 0 ⟨[[true, true]]⟩ =
      .error .shapeMismatch ∧
    stitchGroup (⟨[[1]]⟩ : Image ℚ) ⟨[[1]]⟩ ⟨[[1]]⟩ ⟨[[1, 2]]⟩ =
      .error .shapeMismatch ∧
    run_illum_batch ⟨[[1]]⟩ 0 [(⟨[[1, 2]]⟩, some ⟨[[true]]⟩)] =
      ([], some .shapeMismatch) :=
  ⟨C7_shape_mismatch.1 ⟨[[1, 2]]⟩ ⟨[[1]]⟩ 0 ⟨[[true, true]]⟩ (by decide)
      (by decide),
   C7_shape_mismatch.2.1 ⟨[[1]]⟩ ⟨[[1]]⟩ ⟨[[1]]⟩ ⟨[[1, 2]]⟩ (by decide),
   C7_shape_mismatch.2.2.2 ⟨[[1]]⟩ 0 (⟨[[1, 2]]⟩, some ⟨[[true]]⟩) []
     .shapeMismatch (by decide)⟩

/-- C10.  `get_command` returns `argv[1]` unconditionally: on a vector with
fewer than two entries the lookup is out of range (Python raises
`IndexError`) instead of any unrecognized-command handling, and whenever
`main` dispatches to a handler, the command it dispatched on is exactly
`argv[1]`, independent of the parsed namespace. -/
theorem C10_get_command_unconditional :
    (∀ argv : List String, get_command argv = argv[1]?) ∧
    (∀ argv : List String, argv.length < 2 → get_command argv = none) ∧
    (∀ (argv : List String) (c : String), main argv = .ran c →
      get_command argv = some c) := by
  refine ⟨fun argv => rfl, ?_, ?_⟩
  · intro argv h
    rw [get_command, List.getElem?_eq_none]
    omega
  · intro argv c h
    cases e : argv[1]? with
    | none =>
      have hp : parse_args argv = .error 2 := by
        unfold parse_args
        rw [e]
      unfold main at h
      rw [hp] at h
      exact absurd h (by simp)
    | some w =>
      by_cases hw : w ∈ helpFlags
      · have hp : parse_args argv = .error 0 := by
          unfold parse_args
          rw [e]
          show (if w ∈ helpFlags then Except.error 0
            else if w ∈ subcommands then Except.ok () else Except.error 2) =
              Except.error 0
          rw [if_pos hw]
        unfold main at h
        rw [hp] at h
        exact absurd h (by simp)
      · by_cases hs : w ∈ subcommands
        · have hp : parse_args argv = .ok () := by
            unfold parse_args
            rw [e]
            show (if w ∈ helpFlags then Except.error 0
              else if w ∈ subcommands then Except.ok () else Except.error 2) =
                Except.ok ()
            rw [if_neg hw, if_pos hs]
          unfold main get_command at h
          rw [hp, e] at h
          simp only [if_pos hs, CliOutcome.ran.injEq] at h
          show argv[1]? = some c
          rw [e, h]
        · have hp : parse_args argv = .error 2 := by
            unfold parse_args
            rw [e]
            show (if w ∈ helpFlags then Except.error 0
              else if w ∈ subcommands then Except.ok () else Except.error 2) =
                Except.error 2
            rw [if_neg hw, if_neg hs]
          unfold main at h
          rw [hp] at h
          exact absurd h (by simp)

/-- Witness for C10: a one-entry vector has no command word, and a dispatch
on `mask` came from `argv[1]`. -/
theorem C10_get_command_unconditional_witness :
    get_command ["husc"] = none ∧ get_command ["husc", "mask"] = some "mask" :=
  ⟨C10_get_command_unconditional.2.1 ["husc"] (by decide),
   C10_get_command_unconditional.2.2 ["husc", "mask"] "mask" (by decide)⟩

end Husc
